import Mathlib

/-!
# Verification of the music-notes waveform / note-activation core

Shallow embedding of the algorithmic core of the `music-notes` repository:

* the Temporal Note Activation Engine (`NotePreview.tsx`: `activeNotes`),
* the Waveform Engine utilities (`utils/audio.ts`: `generateWaveformData`,
  `normalizeWaveform`), coordinate mapping and click handling
  (`WaveformView.tsx`), and
* the note manager state transitions (`hooks/useNoteManager.ts`,
  `services/database.ts`).

JavaScript numbers are modelled as rationals (`ℚ`); where the distinction
between real numbers and IEEE special values (NaN / Infinity) matters, a
dedicated `JSNum` type with explicit JS arithmetic semantics is used.
JavaScript's `Array.prototype.sort` with a numeric comparator is modelled
as the stable `List.mergeSort` on the corresponding boolean `≤` test.
-/

namespace MusicNotes

/-- A note record (`src/types/index.ts`, interface `Note`).  The `createdAt` /
`updatedAt` `Date` fields are omitted: no claim refers to them. -/
structure Note where
  id : String
  timestamp : ℚ
  content : String
  color : Option String := none
  projectId : String := ""
  deriving Repr, DecidableEq

/-! ## Temporal Note Activation Engine (`NotePreview.tsx`) -/

/-- `Math.abs(note.timestamp - currentTime)` — the distance used both for the
activation filter and the ranking comparator. -/
def noteDistance (currentTime : ℚ) (note : Note) : ℚ :=
  |note.timestamp - currentTime|

/-- The `activeNotes` computation of `NotePreview.tsx`, with the local constant
`tolerance` lifted to a parameter (the source fixes `tolerance = 2`; the spec's
operation signature `activeNotes(notes, currentTime, isPlaying, tolerance)`
carries it explicitly):

```js
if (!isPlaying) return [];
const tolerance = 2;
return notes.filter(note => Math.abs(note.timestamp - currentTime) <= tolerance)
            .sort((a, b) => Math.abs(a.timestamp - currentTime)
                          - Math.abs(b.timestamp - currentTime));
```

`Array.prototype.sort` is stable, hence `List.mergeSort`. -/
def activeNotesAt (tolerance : ℚ) (notes : List Note) (currentTime : ℚ)
    (isPlaying : Bool) : List Note :=
  if !isPlaying then []
  else
    (notes.filter fun note => decide (noteDistance currentTime note ≤ tolerance)).mergeSort
      fun a b => decide (noteDistance currentTime a ≤ noteDistance currentTime b)

/-- `activeNotes` exactly as in the source, where `tolerance = 2`. -/
def activeNotes (notes : List Note) (currentTime : ℚ) (isPlaying : Bool) : List Note :=
  activeNotesAt 2 notes currentTime isPlaying

/-! ## Waveform Engine utilities (`src/utils/audio.ts`) -/

/-- `const samples = 1000` in `generateWaveformData`. -/
def waveformSamples : ℕ := 1000

/-- `generateWaveformData` (`utils/audio.ts`): block size is
`Math.floor(channelData.length / samples)`; for each of the `samples` blocks the
peak is the maximum absolute sample value, starting from `max = 0`.

The inner loop reads `channelData[start .. start+blockSize-1]`; these indices
are always in range (`1000 * blockSize ≤ length`), so the `getD` default `0` is
never consulted. -/
def generateWaveformData (channelData : List ℚ) : List ℚ :=
  let blockSize := channelData.length / waveformSamples
  (List.range waveformSamples).map fun i =>
    ((List.range blockSize).map fun j => |channelData.getD (i * blockSize + j) 0|).foldl
      Max.max 0

/-- `Math.max(p, ...rest)`: the maximum of a non-empty list, written as a fold
from its head. -/
def jsMaxNE (p : ℚ) (rest : List ℚ) : ℚ :=
  rest.foldl Max.max p

/-- `Math.max(...peaks)` as used by `normalizeWaveform`; `none` models the
`-Infinity` returned by `Math.max()` on an empty array. -/
def jsMax : List ℚ → Option ℚ
  | [] => none
  | p :: rest => some (jsMaxNE p rest)

/-- `normalizeWaveform` (`utils/audio.ts`):

```js
const max = Math.max(...peaks);
if (max === 0) return peaks;
return peaks.map(peak => peak / max);
```

On an empty array `max` is `-Infinity` (`≠ 0`), and mapping over the empty
array yields the empty array. -/
def normalizeWaveform : List ℚ → List ℚ
  | [] => []
  | p :: rest =>
    if jsMaxNE p rest = 0 then p :: rest
    else (p :: rest).map fun peak => peak / jsMaxNE p rest

/-! ## Coordinate mapping and click handling (`WaveformView.tsx`) -/

/-- The time-to-pixel mapping used for the progress line
(`progressX = (currentTime / duration) * width`) and the note markers
(`noteX = (note.timestamp / duration) * width`). -/
def timeToX (time viewportWidth duration : ℚ) : ℚ :=
  (time / duration) * viewportWidth

/-- The pixel-to-time mapping used by the click / double-click / hover handlers:
`time = (clickX / rect.width) * duration`. -/
def xToTime (x viewportWidth duration : ℚ) : ℚ :=
  (x / viewportWidth) * duration

/-- `const tolerance = 10` (pixels) in `handleCanvasClick`. -/
def hitTolerance : ℚ := 10

/-- The externally visible effect of a single canvas click: which callback
(`onSelectNote` / `onSeek`) is invoked, and with what. -/
inductive ClickAction where
  | noAction
  | selectNote (n : Note)
  | clearSelection
  | seek (t : ℚ)
  deriving Repr, DecidableEq

/-- `handleCanvasClick` (`WaveformView.tsx`):

```js
if (!containerRef.current || !playbackState.duration) return;
const clickX = e.clientX - rect.left;
const time = (clickX / rect.width) * playbackState.duration;
const tolerance = 10;
const clickedNote = notes.find(note => {
  const noteX = (note.timestamp / playbackState.duration) * rect.width;
  return Math.abs(clickX - noteX) <= tolerance;
});
if (clickedNote) onSelectNote(selectedNote?.id === clickedNote.id ? null : clickedNote);
else onSeek(time);
```

The `containerRef` guard is environmental (the DOM node always exists while the
handler is attached) and is not modelled; `!playbackState.duration` is the
`duration = 0` test over `ℚ`. -/
def handleCanvasClick (notes : List Note) (selectedNote : Option Note)
    (duration width clickX : ℚ) : ClickAction :=
  if duration = 0 then .noAction
  else
    let time := (clickX / width) * duration
    match notes.find? fun note =>
        decide (|clickX - (note.timestamp / duration) * width| ≤ hitTolerance) with
    | some clickedNote =>
      match selectedNote with
      | some sel => if sel.id = clickedNote.id then .clearSelection else .selectNote clickedNote
      | none => .selectNote clickedNote
    | none => .seek time

/-! ## JavaScript number semantics

Where a claim turns on IEEE special values (NaN from malformed timestamps,
Infinity from dividing by a zero duration), `ℚ` is too coarse.  `JSNum` models
a JavaScript number as either NaN, ±Infinity, or a finite rational.  The signed
zero distinction is not modelled (`num 0` plays the role of `+0`); no claim
depends on it. -/

inductive JSNum where
  | nan
  | inf
  | ninf
  | num (q : ℚ)
  deriving Repr, DecidableEq

/-- JS subtraction `a - b`. -/
def jsSub : JSNum → JSNum → JSNum
  | .nan, _ => .nan
  | _, .nan => .nan
  | .inf, .inf => .nan
  | .inf, _ => .inf
  | .ninf, .ninf => .nan
  | .ninf, _ => .ninf
  | .num _, .inf => .ninf
  | .num _, .ninf => .inf
  | .num p, .num q => .num (p - q)

/-- JS `Math.abs`. -/
def jsAbs : JSNum → JSNum
  | .nan => .nan
  | .inf => .inf
  | .ninf => .inf
  | .num q => .num |q|

/-- JS `<=`: any comparison involving NaN is false. -/
def jsLe : JSNum → JSNum → Bool
  | .nan, _ => false
  | _, .nan => false
  | .ninf, _ => true
  | _, .inf => true
  | .inf, _ => false
  | .num _, .ninf => false
  | .num p, .num q => decide (p ≤ q)

/-- JS division `a / b`, including division by zero
(`p / 0 = ±Infinity` for `p ≠ 0`, `0 / 0 = NaN`). -/
def jsDiv : JSNum → JSNum → JSNum
  | .nan, _ => .nan
  | _, .nan => .nan
  | .inf, .inf => .nan
  | .inf, .ninf => .nan
  | .ninf, .inf => .nan
  | .ninf, .ninf => .nan
  | .inf, .num q => if 0 ≤ q then .inf else .ninf
  | .ninf, .num q => if 0 ≤ q then .ninf else .inf
  | .num _, .inf => .num 0
  | .num _, .ninf => .num 0
  | .num p, .num q =>
    if q = 0 then (if p = 0 then .nan else if 0 < p then .inf else .ninf)
    else .num (p / q)

/-- JS multiplication `a * b` (`±Infinity * 0 = NaN`). -/
def jsMul : JSNum → JSNum → JSNum
  | .nan, _ => .nan
  | _, .nan => .nan
  | .inf, .inf => .inf
  | .inf, .ninf => .ninf
  | .ninf, .inf => .ninf
  | .ninf, .ninf => .inf
  | .inf, .num q => if q = 0 then .nan else if 0 < q then .inf else .ninf
  | .num q, .inf => if q = 0 then .nan else if 0 < q then .inf else .ninf
  | .ninf, .num q => if q = 0 then .nan else if 0 < q then .ninf else .inf
  | .num q, .ninf => if q = 0 then .nan else if 0 < q then .ninf else .inf
  | .num p, .num q => .num (p * q)

/-- The drawing-side time-to-x formula of `WaveformView.tsx`
(`(time / duration) * width`) evaluated with JavaScript number semantics —
the source applies it with no guard on `duration`. -/
def timeToX_JS (time width duration : JSNum) : JSNum :=
  jsMul (jsDiv time duration) width

/-- A note whose timestamp is kept as a raw JavaScript number, so that
malformed (NaN) timestamps can be represented. -/
structure JSNote where
  id : String
  timestamp : JSNum
  content : String
  deriving Repr, DecidableEq

/-- The `activeNotes` computation of `NotePreview.tsx` again, this time with
JavaScript number semantics for the timestamps (tolerance `2` as in the
source).  The comparator passed to the stable sort compares the two absolute
distances with JS `<=`; after the filter both distances are finite, so the
NaN-comparator corner of `Array.prototype.sort` is unreachable. -/
def activeNotesJS (notes : List JSNote) (currentTime : JSNum) (isPlaying : Bool) :
    List JSNote :=
  if !isPlaying then []
  else
    (notes.filter fun note =>
        jsLe (jsAbs (jsSub note.timestamp currentTime)) (.num 2)).mergeSort
      fun a b =>
        jsLe (jsAbs (jsSub a.timestamp currentTime)) (jsAbs (jsSub b.timestamp currentTime))

/-! ## Decode and waveform state (`WaveformView.tsx` effect, `utils/audio.ts`) -/

/-- Decode failure, as classified by the spec's error taxonomy. -/
inductive DecodeError where
  | unsupported
  deriving Repr, DecidableEq

/-- An uploaded file's byte stream, abstracted to what the decode collaborator
distinguishes: whether it is a supported, non-corrupt audio stream, and if so
which PCM samples (channel 0) it decodes to. -/
structure ByteStream where
  supported : Bool
  samples : List ℚ
  deriving Repr, DecidableEq

/-- Modelled from the spec: `decodeAudioFile` (`utils/audio.ts`) delegates to the
browser's `AudioContext.decodeAudioData`, which is not part of this repository;
per the spec's decode-collaborator contract it "fails with `DecodeError` if the
byte stream is not a supported audio container/codec, or is empty/corrupt" and
otherwise yields the PCM sample buffer. -/
def decodeAudioFile (bs : ByteStream) : Except DecodeError (List ℚ) :=
  if bs.supported then .ok bs.samples else .error .unsupported

/-- The `generateWaveform` effect of `WaveformView.tsx`, as a transition on the
`waveformData` state: on a successful decode it replaces the state with the
normalized peaks (`setWaveformData(normalizedPeaks)`); on failure the `catch`
block only logs, leaving `waveformData` untouched. -/
def generateWaveform (decodeResult : Except DecodeError (List ℚ))
    (waveformData : Option (List ℚ)) : Option (List ℚ) :=
  match decodeResult with
  | .ok channelData => some (normalizeWaveform (generateWaveformData channelData))
  | .error _ => waveformData

/-! ## Note manager (`hooks/useNoteManager.ts`, `services/database.ts`) -/

/-- The comparator `(a, b) => a.timestamp - b.timestamp` of `addNote`, and the
`ORDER BY timestamp ASC` key of `getNotesByProject`, as a boolean `≤` test. -/
def noteLe (a b : Note) : Bool :=
  decide (a.timestamp ≤ b.timestamp)

/-- `getNotesByProject` (`services/database.ts`):
`SELECT * FROM notes WHERE project_id = ? ORDER BY timestamp ASC`.  The SQL
engine (sql.js) is external to the repository; its `WHERE`/`ORDER BY` semantics
are modelled as a filter by project id followed by a stable sort on ascending
timestamp. -/
def getNotesByProject (stored : List Note) (projectId : String) : List Note :=
  (stored.filter fun n => n.projectId = projectId).mergeSort noteLe

/-- `loadNotes` (`useNoteManager.ts`): `setNotes(await getNotesByProject(projectId))`. -/
def loadNotes (stored : List Note) (projectId : String) : List Note :=
  getNotesByProject stored projectId

/-- `addNote` (`useNoteManager.ts`):
`setNotes(prev => [...prev, newNote].sort((a, b) => a.timestamp - b.timestamp))`. -/
def addNote (prev : List Note) (newNote : Note) : List Note :=
  (prev ++ [newNote]).mergeSort noteLe

/-- `deleteNote` (`useNoteManager.ts`):
`setNotes(prev => prev.filter(note => note.id !== id))`. -/
def deleteNote (prev : List Note) (id : String) : List Note :=
  prev.filter fun note => note.id ≠ id

/-- A plain note literal used to instantiate theorems on concrete inputs. -/
def mkNote (id : String) (ts : ℚ) : Note :=
  { id := id, timestamp := ts, content := "note " ++ id }

/-! ## Helper lemmas -/

lemma foldl_max_div (m : ℚ) (hm : 0 < m) :
    ∀ (l : List ℚ) (a : ℚ),
      (l.map fun x => x / m).foldl Max.max (a / m) = l.foldl Max.max a / m := by
  intro l
  induction l with
  | nil => intro a; simp
  | cons x xs ih =>
    intro a
    simp only [List.map_cons, List.foldl_cons]
    rw [max_div_div_right hm.le a x, ih]

lemma jsMaxNE_map_div (p : ℚ) (rest : List ℚ) (m : ℚ) (hm : 0 < m) :
    jsMaxNE (p / m) (rest.map fun x => x / m) = jsMaxNE p rest / m := by
  unfold jsMaxNE
  exact foldl_max_div m hm rest p

lemma foldl_max_nonneg (l : List ℚ) : ∀ a : ℚ, 0 ≤ a → 0 ≤ l.foldl Max.max a := by
  induction l with
  | nil => intro a ha; simpa using ha
  | cons x xs ih =>
    intro a ha
    exact ih _ (ha.trans (le_max_left a x))

lemma foldl_max_range_abs (l : List ℚ) :
    ∀ (n s : ℕ) (a : ℚ), 0 ≤ a →
      ((List.range n).map fun k => |l.getD (s + k) 0|).foldl Max.max a
        = (((l.drop s).take n).map fun x => |x|).foldl Max.max a := by
  intro n
  induction n with
  | zero => intro s a _; simp
  | succ n ih =>
    intro s a ha
    rw [List.range_succ_eq_map, List.map_cons, List.map_map, List.foldl_cons]
    have harg : ((fun k => |l.getD (s + k) 0|) ∘ Nat.succ)
        = fun k => |l.getD ((s + 1) + k) 0| := by
      funext k
      simp only [Function.comp_apply]
      rw [show s + Nat.succ k = (s + 1) + k by omega]
    rw [harg]
    by_cases hs : s < l.length
    · rw [List.drop_eq_getElem_cons hs, List.take_succ_cons, List.map_cons, List.foldl_cons]
      have h0 : l.getD (s + 0) 0 = l[s] := by
        rw [Nat.add_zero]
        exact List.getD_eq_getElem l 0 hs
      rw [h0]
      exact ih (s + 1) (Max.max a |l[s]|) (ha.trans (le_max_left _ _))
    · have hlen : l.length ≤ s := le_of_not_lt hs
      have h1 : l.drop s = [] := List.drop_eq_nil_of_le hlen
      have h2 : l.drop (s + 1) = [] := List.drop_eq_nil_of_le (hlen.trans (Nat.le_succ s))
      have h0 : l.getD (s + 0) 0 = 0 := by
        rw [List.getD_eq_getElem?_getD, List.getElem?_eq_none (by omega)]
        rfl
      rw [h0, ih (s + 1) (Max.max a |(0 : ℚ)|) (ha.trans (le_max_left _ _)), h1, h2]
      simp [max_eq_left ha]

end MusicNotes

namespace MusicNotes

/-! ## Claim theorems -/

/-- C1: for notes supplied in ascending-timestamp order (as the note store
provides them), `activeNotes` returns a sequence sorted by non-decreasing
absolute distance from `currentTime`; when two notes are at equal distance the
one with the lower timestamp comes first.  The tie-break is a consequence of
the stability of `Array.prototype.sort` (`List.mergeSort`). -/
theorem activeNotes_sorted_by_distance (tolerance : ℚ) (notes : List Note)
    (currentTime : ℚ) (isPlaying : Bool)
    (hsorted : notes.Pairwise fun a b => a.timestamp ≤ b.timestamp) :
    (activeNotesAt tolerance notes currentTime isPlaying).Pairwise fun a b =>
      noteDistance currentTime a < noteDistance currentTime b ∨
        (noteDistance currentTime a = noteDistance currentTime b ∧
          a.timestamp ≤ b.timestamp) := by
  cases isPlaying with
  | false => simp [activeNotesAt]
  | true =>
    have hunfold : activeNotesAt tolerance notes currentTime true =
        (notes.filter fun note => decide (noteDistance currentTime note ≤ tolerance)).mergeSort
          fun a b => decide (noteDistance currentTime a ≤ noteDistance currentTime b) := rfl
    rw [hunfold]
    set le : Note → Note → Bool :=
      fun a b => decide (noteDistance currentTime a ≤ noteDistance currentTime b) with hle
    set filtered : List Note :=
      notes.filter fun note => decide (noteDistance currentTime note ≤ tolerance) with hfl
    have hfil : filtered.Pairwise fun a b => a.timestamp ≤ b.timestamp :=
      hsorted.filter _
    have htrans : ∀ a b c, le a b = true → le b c = true → le a c = true := by
      intro a b c hab hbc
      simp only [hle, decide_eq_true_eq] at hab hbc ⊢
      exact hab.trans hbc
    have htotal : ∀ a b, (le a b || le b a) = true := by
      intro a b
      simp only [hle, Bool.or_eq_true, decide_eq_true_eq]
      exact le_total _ _
    rw [← @List.mergeSort_enum _ le filtered, List.pairwise_map]
    have h1 := List.sorted_mergeSort (List.enumLE_trans htrans) (List.enumLE_total htotal)
      filtered.enum
    refine h1.imp_of_mem ?_
    intro x y hx hy hxy
    rw [List.mem_mergeSort, List.mem_enum_iff_getElem?] at hx hy
    unfold List.enumLE at hxy
    by_cases hab : le x.2 y.2 = true
    · rw [if_pos hab] at hxy
      have hab' : noteDistance currentTime x.2 ≤ noteDistance currentTime y.2 := by
        simpa [hle] using hab
      rcases hab'.lt_or_eq with hlt | heq
      · exact Or.inl hlt
      · refine Or.inr ⟨heq, ?_⟩
        have hba : le y.2 x.2 = true := by simp [hle, heq.ge]
        rw [if_pos hba, decide_eq_true_eq] at hxy
        rcases eq_or_lt_of_le hxy with hij | hij
        · rw [hij] at hx
          have : x.2 = y.2 := Option.some.inj (hx.symm.trans hy)
          rw [this]
        · obtain ⟨hxlt, hxe⟩ := List.getElem?_eq_some.mp hx
          obtain ⟨hylt, hye⟩ := List.getElem?_eq_some.mp hy
          have := List.pairwise_iff_getElem.mp hfil x.1 y.1 hxlt hylt hij
          rw [hxe, hye] at this
          exact this
    · rw [if_neg hab] at hxy
      exact absurd hxy (by simp)

/-- C1 witness: the spec's example — notes at timestamps `[10, 12, 30]`,
`currentTime = 11`, `tolerance = 3` — is sorted by distance with the
ascending-timestamp tie-break. -/
theorem activeNotes_sorted_by_distance_witness :
    (activeNotesAt 3 [mkNote "a" 10, mkNote "b" 12, mkNote "c" 30] 11 true).Pairwise
      fun a b =>
        noteDistance 11 a < noteDistance 11 b ∨
          (noteDistance 11 a = noteDistance 11 b ∧ a.timestamp ≤ b.timestamp) :=
  activeNotes_sorted_by_distance 3 [mkNote "a" 10, mkNote "b" 12, mkNote "c" 30] 11 true
    (by decide)

/-- C2: for every list of notes and every currentTime, if `isPlaying` is false
then `activeNotes` returns the empty sequence — no note is surfaced while
paused or stopped. -/
theorem activeNotes_empty_of_not_playing (notes : List Note) (currentTime : ℚ) :
    activeNotes notes currentTime false = [] :=
  rfl

/-- C3: for every peaks array, `normalizeWaveform` satisfies: if the global
maximum is positive, the maximum of the normalized array is exactly `1` (each
element having been divided by the global maximum); if the global maximum is
exactly `0`, the input is returned unchanged and no division by zero occurs. -/
theorem normalizeWaveform_spec (peaks : List ℚ) :
    (∀ m, jsMax peaks = some m → 0 < m → jsMax (normalizeWaveform peaks) = some 1) ∧
    (jsMax peaks = some 0 → normalizeWaveform peaks = peaks) := by
  cases peaks with
  | nil => simp [jsMax]
  | cons p rest =>
    constructor
    · intro m hm hpos
      have hm' : jsMaxNE p rest = m := by simpa [jsMax] using hm
      have hne : jsMaxNE p rest ≠ 0 := by rw [hm']; exact hpos.ne'
      simp only [normalizeWaveform, if_neg hne]
      simp only [List.map_cons, jsMax, Option.some.injEq]
      rw [jsMaxNE_map_div p rest _ (hm' ▸ hpos), hm', div_self hpos.ne']
    · intro h0
      have hm' : jsMaxNE p rest = 0 := by simpa [jsMax] using h0
      simp only [normalizeWaveform, if_pos hm']

/-- C3 witness: a positive-maximum array is normalized to maximum `1`, and the
all-silent array `[0, 0, 0]` is returned unchanged. -/
theorem normalizeWaveform_witness :
    jsMax [(1 : ℚ), 2, 4] = some 4 ∧ (0 : ℚ) < 4 ∧
      jsMax (normalizeWaveform [(1 : ℚ), 2, 4]) = some 1 ∧
      jsMax [(0 : ℚ), 0, 0] = some 0 ∧ normalizeWaveform [(0 : ℚ), 0, 0] = [0, 0, 0] :=
  ⟨by decide, by norm_num, (normalizeWaveform_spec [(1 : ℚ), 2, 4]).1 4 (by decide) (by norm_num),
    by decide, (normalizeWaveform_spec [(0 : ℚ), 0, 0]).2 (by decide)⟩

/-- C5: mapping a time to a pixel and back is the identity whenever the
viewport width and the duration are positive (exactly, over `ℚ`). -/
theorem xToTime_timeToX_roundTrip (t W D : ℚ) (ht0 : 0 ≤ t) (htD : t ≤ D)
    (hW : 0 < W) (hD : 0 < D) :
    xToTime (timeToX t W D) W D = t := by
  unfold timeToX xToTime
  field_simp
  ring

/-- C5 witness: the round trip at `t = 3`, `W = 100`, `D = 10`. -/
theorem xToTime_timeToX_roundTrip_witness :
    (0 : ℚ) ≤ 3 ∧ (3 : ℚ) ≤ 10 ∧ (0 : ℚ) < 100 ∧ (0 : ℚ) < 10 ∧
      xToTime (timeToX 3 100 10) 100 10 = 3 :=
  ⟨by norm_num, by norm_num, by norm_num, by norm_num,
    xToTime_timeToX_roundTrip 3 100 10 (by norm_num) (by norm_num) (by norm_num) (by norm_num)⟩

/-- C6 counterexample: the drawing-side time-to-x formula is *not* guarded
against `duration = 0`; under JavaScript number semantics `(5 / 0) * 100`
evaluates to `Infinity`, not `0`. -/
theorem timeToX_zero_duration_cex :
    timeToX_JS (.num 5) (.num 100) (.num 0) = .inf ∧
      timeToX_JS (.num 5) (.num 100) (.num 0) ≠ .num 0 := by
  constructor
  · rfl
  · decide

/-- C6 (amended): when the duration is `0`, `handleCanvasClick` returns early —
no seek and no selection change is requested, and the x-to-time mapping is
never evaluated. -/
theorem handleCanvasClick_zero_duration (notes : List Note) (sel : Option Note)
    (W x : ℚ) :
    handleCanvasClick notes sel 0 W x = .noAction :=
  rfl

/-- C8 counterexample: a note with a *negative* timestamp is not filtered out
of `activeNotes` — with `currentTime = 0` the note at `-1` is within the
tolerance window and is returned. -/
theorem activeNotesJS_negative_not_filtered_cex :
    activeNotesJS [⟨"neg", .num (-1), "past"⟩] (.num 0) true
        = [⟨"neg", .num (-1), "past"⟩] ∧
      (JSNum.num (-1) ≠ .nan ∧ (-1 : ℚ) < 0) := by
  refine ⟨?_, by decide, by norm_num⟩
  have hpred : jsLe (jsAbs (jsSub (JSNum.num (-1)) (.num 0))) (.num 2) = true := by
    show jsLe (jsAbs (.num ((-1) - 0))) (.num 2) = true
    show jsLe (.num |(-1) - 0|) (.num 2) = true
    show decide (|(-1 : ℚ) - 0| ≤ 2) = true
    rw [decide_eq_true_eq]
    norm_num
  have hunfold : activeNotesJS [(⟨"neg", .num (-1), "past"⟩ : JSNote)] (.num 0) true
      = ([(⟨"neg", .num (-1), "past"⟩ : JSNote)].filter fun note =>
          jsLe (jsAbs (jsSub note.timestamp (.num 0))) (.num 2)).mergeSort
        (fun a b =>
          jsLe (jsAbs (jsSub a.timestamp (.num 0))) (jsAbs (jsSub b.timestamp (.num 0)))) :=
    rfl
  rw [hunfold]
  simp only [List.filter_cons, hpred, if_true, List.filter_nil, List.mergeSort_singleton]

/-- C8 (amended): notes with NaN timestamps never appear in `activeNotes`
(every comparison against NaN is false, so the filter drops them), and the
engine, a pure total function, propagates no exception. -/
theorem activeNotesJS_filters_nan (notes : List JSNote) (currentTime : JSNum)
    (isPlaying : Bool) :
    ∀ n ∈ activeNotesJS notes currentTime isPlaying, n.timestamp ≠ .nan := by
  intro n hn hnan
  cases isPlaying with
  | false => simp [activeNotesJS] at hn
  | true =>
    have hunfold : activeNotesJS notes currentTime true
        = (notes.filter fun note =>
            jsLe (jsAbs (jsSub note.timestamp currentTime)) (.num 2)).mergeSort
          (fun a b =>
            jsLe (jsAbs (jsSub a.timestamp currentTime)) (jsAbs (jsSub b.timestamp currentTime))) :=
      rfl
    rw [hunfold, List.mem_mergeSort, List.mem_filter] at hn
    have hpred := hn.2
    rw [hnan] at hpred
    simp [jsSub, jsAbs, jsLe] at hpred

/-- C8 witness: with a NaN-timestamped note and a well-formed note in range,
the well-formed note is returned and its timestamp is not NaN. -/
theorem activeNotesJS_filters_nan_witness :
    (⟨"ok", .num 1, "x"⟩ : JSNote) ∈
        activeNotesJS [⟨"bad", .nan, "y"⟩, ⟨"ok", .num 1, "x"⟩] (.num 0) true ∧
      (⟨"ok", .num 1, "x"⟩ : JSNote).timestamp ≠ .nan := by
  have hbad : jsLe (jsAbs (jsSub JSNum.nan (.num 0))) (.num 2) = false := rfl
  have hok : jsLe (jsAbs (jsSub (JSNum.num 1) (.num 0))) (.num 2) = true := by
    show decide (|(1 : ℚ) - 0| ≤ 2) = true
    rw [decide_eq_true_eq]
    norm_num
  have hmem : (⟨"ok", .num 1, "x"⟩ : JSNote) ∈
      activeNotesJS [⟨"bad", .nan, "y"⟩, ⟨"ok", .num 1, "x"⟩] (.num 0) true := by
    have hunfold : activeNotesJS [(⟨"bad", .nan, "y"⟩ : JSNote), ⟨"ok", .num 1, "x"⟩]
          (.num 0) true
        = ([(⟨"bad", .nan, "y"⟩ : JSNote), ⟨"ok", .num 1, "x"⟩].filter fun note =>
            jsLe (jsAbs (jsSub note.timestamp (.num 0))) (.num 2)).mergeSort
          (fun a b =>
            jsLe (jsAbs (jsSub a.timestamp (.num 0))) (jsAbs (jsSub b.timestamp (.num 0)))) :=
      rfl
    rw [hunfold]
    simp only [List.filter_cons, hbad, hok, if_true, Bool.false_eq_true, if_false,
      List.filter_nil, List.mergeSort_singleton]
    exact List.mem_singleton.mpr rfl
  exact ⟨hmem,
    activeNotesJS_filters_nan [⟨"bad", .nan, "y"⟩, ⟨"ok", .num 1, "x"⟩] (.num 0) true _ hmem⟩

/-- C9: on a byte stream that is not supported audio, decode fails with a
`DecodeError`, no peak series is produced from it, and the previously
established waveform state is left unchanged. -/
theorem decode_failure_preserves_state (bs : ByteStream) (prior : Option (List ℚ))
    (hbs : bs.supported = false) :
    decodeAudioFile bs = .error .unsupported ∧
      generateWaveform (decodeAudioFile bs) prior = prior := by
  unfold decodeAudioFile generateWaveform
  rw [hbs]
  simp

/-- C9 witness: a concrete unsupported stream against a previously loaded
waveform. -/
theorem decode_failure_preserves_state_witness :
    (⟨false, [5]⟩ : ByteStream).supported = false ∧
      decodeAudioFile ⟨false, [5]⟩ = .error .unsupported ∧
      generateWaveform (decodeAudioFile ⟨false, [5]⟩) (some [1]) = some [1] :=
  ⟨rfl, (decode_failure_preserves_state ⟨false, [5]⟩ (some [1]) rfl).1,
    (decode_failure_preserves_state ⟨false, [5]⟩ (some [1]) rfl).2⟩

/-- C10: the note manager's list is sorted by ascending timestamp after
`loadNotes` (store returns `ORDER BY timestamp ASC`) and after `addNote`
(re-sorts after appending), and `deleteNote` preserves both sortedness and the
relative order (its result is a sublist of its input). -/
theorem noteManager_sorted_invariant :
    (∀ stored pid, (loadNotes stored pid).Pairwise fun a b => a.timestamp ≤ b.timestamp) ∧
    (∀ prev n, (addNote prev n).Pairwise fun a b => a.timestamp ≤ b.timestamp) ∧
    (∀ prev id, prev.Pairwise (fun a b => a.timestamp ≤ b.timestamp) →
      (deleteNote prev id).Pairwise (fun a b => a.timestamp ≤ b.timestamp) ∧
        (deleteNote prev id).Sublist prev) := by
  have htrans : ∀ a b c : Note, noteLe a b = true → noteLe b c = true → noteLe a c = true := by
    intro a b c hab hbc
    simp only [noteLe, decide_eq_true_eq] at *
    exact hab.trans hbc
  have htotal : ∀ a b : Note, (noteLe a b || noteLe b a) = true := by
    intro a b
    simp only [noteLe, Bool.or_eq_true, decide_eq_true_eq]
    exact le_total _ _
  have hsorted : ∀ l : List Note,
      (l.mergeSort noteLe).Pairwise fun a b => a.timestamp ≤ b.timestamp := by
    intro l
    refine (List.sorted_mergeSort htrans htotal l).imp ?_
    intro a b h
    simpa [noteLe] using h
  refine ⟨fun stored pid => hsorted _, fun prev n => hsorted _, fun prev id hprev => ?_⟩
  exact ⟨hprev.filter _, List.filter_sublist prev⟩

/-- C7: with a positive duration and notes in ascending-timestamp order, a
single click that lands within 10 pixels of some note's mapped x-position
toggles the selection of the first such note (selects it when it is not the
selected note, deselects when it is) and requests no seek; a click that is
within tolerance of no note requests exactly one seek, to the time mapped from
the click position. -/
theorem handleCanvasClick_spec (notes : List Note) (sel : Option Note) (D W x : ℚ)
    (hD : 0 < D)
    (hsorted : notes.Pairwise fun a b => a.timestamp ≤ b.timestamp) :
    (∀ pre hit post,
      notes = pre ++ hit :: post →
      (∀ n ∈ pre, ¬|x - (n.timestamp / D) * W| ≤ hitTolerance) →
      |x - (hit.timestamp / D) * W| ≤ hitTolerance →
      handleCanvasClick notes sel D W x =
          (match sel with
            | some s => if s.id = hit.id then .clearSelection else .selectNote hit
            | none => .selectNote hit) ∧
        ∀ t, handleCanvasClick notes sel D W x ≠ .seek t) ∧
    ((∀ n ∈ notes, ¬|x - (n.timestamp / D) * W| ≤ hitTolerance) →
      handleCanvasClick notes sel D W x = .seek ((x / W) * D)) := by
  have hD0 : ¬D = 0 := hD.ne'
  constructor
  · intro pre hit post hnotes hpre hhit
    have hfind :
        (notes.find? fun note =>
          decide (|x - (note.timestamp / D) * W| ≤ hitTolerance)) = some hit := by
      rw [hnotes, List.find?_append]
      have hnone :
          (pre.find? fun note =>
            decide (|x - (note.timestamp / D) * W| ≤ hitTolerance)) = none := by
        rw [List.find?_eq_none]
        intro n hn
        simpa using hpre n hn
      rw [hnone, Option.none_or]
      exact List.find?_cons_of_pos post (by simpa using hhit)
    have hres :
        handleCanvasClick notes sel D W x =
          (match sel with
            | some s => if s.id = hit.id then .clearSelection else .selectNote hit
            | none => .selectNote hit) := by
      unfold handleCanvasClick
      rw [if_neg hD0, hfind]
    refine ⟨hres, fun t => ?_⟩
    rw [hres]
    cases sel with
    | none => simp
    | some s =>
      by_cases hid : s.id = hit.id
      · simp [hid]
      · simp [hid]
  · intro hmiss
    have hfind :
        (notes.find? fun note =>
          decide (|x - (note.timestamp / D) * W| ≤ hitTolerance)) = none := by
      rw [List.find?_eq_none]
      intro n hn
      simpa using hmiss n hn
    unfold handleCanvasClick
    rw [if_neg hD0, hfind]

/-- C7 witness: the spec's example — notes whose mapped x-positions are
`[48, 52, 300]` (with `D = 1000`, `W = 1000`) and a click at `x = 50` select
the note at 48, not the one at 52. -/
theorem handleCanvasClick_spec_witness :
    handleCanvasClick [mkNote "a" 48, mkNote "b" 52, mkNote "c" 300] none 1000 1000 50 =
      .selectNote (mkNote "a" 48) :=
  ((handleCanvasClick_spec [mkNote "a" 48, mkNote "b" 52, mkNote "c" 300] none 1000 1000 50
        (by norm_num) (by decide)).1
      [] (mkNote "a" 48) [mkNote "b" 52, mkNote "c" 300] rfl (by simp)
      (by simp only [mkNote]; rw [abs_le]; constructor <;> norm_num [hitTolerance])).1

/-- C4: on every non-empty sample buffer, `generateWaveformData` returns
exactly 1000 values, each `≥ 0`; the `i`-th value is the maximum absolute
sample magnitude over the `i`-th contiguous block of `⌊len / 1000⌋` samples
(remainder samples past the last full block are ignored); and on a buffer
shorter than 1000 samples the block size is 0 and every peak is 0, with no
error. -/
theorem generateWaveformData_spec (channelData : List ℚ) (hne : channelData ≠ []) :
    (generateWaveformData channelData).length = waveformSamples ∧
    (∀ p ∈ generateWaveformData channelData, 0 ≤ p) ∧
    (∀ i, i < waveformSamples →
      (generateWaveformData channelData).getD i 0 =
        (((channelData.drop (i * (channelData.length / waveformSamples))).take
            (channelData.length / waveformSamples)).map fun s => |s|).foldl Max.max 0) ∧
    (channelData.length < waveformSamples → ∀ p ∈ generateWaveformData channelData, p = 0) := by
  refine ⟨?_, ?_, ?_, ?_⟩
  · simp [generateWaveformData]
  · intro p hp
    simp only [generateWaveformData, List.mem_map] at hp
    obtain ⟨i, -, rfl⟩ := hp
    exact foldl_max_nonneg _ 0 le_rfl
  · intro i hi
    have hlen : i < (generateWaveformData channelData).length := by
      simpa [generateWaveformData] using hi
    rw [List.getD_eq_getElem _ 0 hlen]
    simp only [generateWaveformData, List.getElem_map, List.getElem_range]
    exact foldl_max_range_abs channelData _ _ 0 le_rfl
  · intro hshort p hp
    have hbs : channelData.length / waveformSamples = 0 := Nat.div_eq_of_lt hshort
    simp only [generateWaveformData, hbs, List.mem_map] at hp
    obtain ⟨i, -, rfl⟩ := hp
    simp

/-- C4 witness: a two-sample buffer (shorter than 1000) — 1000 peaks, all 0. -/
theorem generateWaveformData_spec_witness :
    ([(1 : ℚ), -3] ≠ []) ∧
      (generateWaveformData [(1 : ℚ), -3]).length = waveformSamples ∧
      (([(1 : ℚ), -3] : List ℚ).length < waveformSamples ∧
        ∀ p ∈ generateWaveformData [(1 : ℚ), -3], p = 0) :=
  ⟨by simp,
    (generateWaveformData_spec [(1 : ℚ), -3] (by simp)).1,
    by norm_num [waveformSamples],
    (generateWaveformData_spec [(1 : ℚ), -3] (by simp)).2.2.2 (by norm_num [waveformSamples])⟩

/-- C10 witness: deleting from a concrete sorted list keeps it sorted. -/
theorem noteManager_sorted_invariant_witness :
    ([mkNote "a" 1, mkNote "b" 2].Pairwise fun a b => a.timestamp ≤ b.timestamp) ∧
      ((deleteNote [mkNote "a" 1, mkNote "b" 2] "a").Pairwise
        fun a b => a.timestamp ≤ b.timestamp) :=
  ⟨by decide, (noteManager_sorted_invariant.2.2 [mkNote "a" 1, mkNote "b" 2] "a" (by decide)).1⟩

end MusicNotes
